import Mathlib

/-!
Verification development for the SUFST intermediate telemetry server.

The Python source is embedded shallowly:
* Python dicts become association lists with insertion-order update
  semantics (`dictSet`), matching CPython's ordered dicts.
* Byte buffers become `List Nat` (each element a byte value).
* Machine integers decoded from the wire become `Int` (struct.unpack of a
  signed type yields the two's-complement value; unsigned types yield the
  little-endian value).  Floating-point wire types are decoded to their raw
  little-endian bit pattern; no claim inspects a float field's numeric value.
* Timestamps and numeric sensor values in the store become `ℚ`.
* Python exceptions become `Except` / `Option` results.
-/

namespace SUFST

/-- Python dict assignment on an association list: update the first entry
with the key in place, otherwise append the new entry (CPython dicts keep
insertion order and update values in place). -/
def dictSet {β : Type} : List (String × β) → String → β → List (String × β)
  | [], k, v => [(k, v)]
  | (k', v') :: rest, k, v =>
    if k' = k then (k, v) :: rest else (k', v') :: dictSet rest k v

/-- Python dict assignment keyed by integers (used for the PDU registry). -/
def dictSetNat {β : Type} : List (Nat × β) → Nat → β → List (Nat × β)
  | [], k, v => [(k, v)]
  | (k', v') :: rest, k, v =>
    if k' = k then (k, v) :: rest else (k', v') :: dictSetNat rest k v

/-- Python `del d[k]`: remove the entry, failing (KeyError) when absent. -/
def dictDelete {β : Type} : List (String × β) → String → Option (List (String × β))
  | [], _ => none
  | (k', v') :: rest, k =>
    if k' = k then some rest else (dictDelete rest k).map ((k', v') :: ·)

/-- Python `d[k]` / `k in d` on an association list. -/
def dictGet {β : Type} : List (String × β) → String → Option β
  | [], _ => none
  | (k', v') :: rest, k => if k' = k then some v' else dictGet rest k

/-- Python dict access keyed by integers. -/
def dictGetNat {β : Type} : List (Nat × β) → Nat → Option β
  | [], _ => none
  | (k', v') :: rest, k => if k' = k then some v' else dictGetNat rest k

@[simp] theorem dictGet_nil {β : Type} (k : String) : dictGet ([] : List (String × β)) k = none :=
  rfl

@[simp] theorem dictGet_cons {β : Type} (k' : String) (v' : β) (rest : List (String × β))
    (k : String) :
    dictGet ((k', v') :: rest) k = if k' = k then some v' else dictGet rest k := rfl

/-- Looking up after a dict assignment. -/
theorem dictGet_dictSet {β : Type} (d : List (String × β)) (k k' : String) (v : β) :
    dictGet (dictSet d k v) k' = if k = k' then some v else dictGet d k' := by
  induction d with
  | nil =>
    by_cases h : k = k' <;> simp [dictSet, h]
  | cons p rest ih =>
    obtain ⟨a, b⟩ := p
    by_cases hak : a = k
    · subst hak
      by_cases h : a = k' <;> simp [dictSet, h]
    · by_cases h : a = k'
      · subst h
        have hk : ¬k = a := fun e => hak e.symm
        simp [dictSet, hak, hk]
      · simp [dictSet, hak, h, ih]

/-- Assigning a fresh key appends the entry at the end. -/
theorem dictSet_fresh_append {β : Type} (d : List (String × β)) (k : String) (v : β)
    (h : dictGet d k = none) : dictSet d k v = d ++ [(k, v)] := by
  induction d with
  | nil => rfl
  | cons p rest ih =>
    obtain ⟨a, b⟩ := p
    by_cases hak : a = k
    · simp [dictGet, hak] at h
    · simp [dictGet, hak] at h
      simp [dictSet, hak, ih h]

/-! ## Wire types (struct format characters used by the schema codecs) -/

/-- The struct format characters appearing in the codec tables.  The
constructor for Python's boolean byte format character is named
boolByte. -/
inductive CType where
  | c | b | B | boolByte | h | H | i | I | l | L | f | d | q | Q
deriving DecidableEq, Repr

/-- Width in bytes of each format character per the struct module
(little-endian, no padding), i.e. struct.calcsize of a single character. -/
def ctypeSize : CType → Nat
  | .c => 1 | .b => 1 | .B => 1 | .boolByte => 1
  | .h => 2 | .H => 2
  | .i => 4 | .I => 4 | .l => 4 | .L => 4 | .f => 4
  | .d => 8 | .q => 8 | .Q => 8

/-- The c_type_lengths table of src/src/protocol/pdu.py. -/
def c_type_lengths : CType → Nat
  | .c => 1 | .b => 1 | .B => 1 | .boolByte => 1
  | .h => 2 | .H => 2
  | .i => 4 | .I => 4 | .l => 4 | .L => 4 | .f => 4
  | .d => 8 | .q => 8 | .Q => 8

/-- The c_type_lengths table of src/src/plugins/schema.py, which maps the
64-bit float format d to 4. -/
def c_type_lengths_plugins : CType → Nat
  | .c => 1 | .b => 1 | .B => 1 | .boolByte => 1
  | .h => 2 | .H => 2
  | .i => 4 | .I => 4 | .l => 4 | .L => 4 | .f => 4
  | .d => 4 | .q => 8 | .Q => 8

/-- Whether a format character is decoded as a signed (two's-complement)
integer by struct.unpack. -/
def ctypeSigned : CType → Bool
  | .b => true | .h => true | .i => true | .l => true | .q => true
  | _ => false

/-- Little-endian value of a byte list. -/
def leValue : List Nat → Nat
  | [] => 0
  | byte :: rest => byte + 256 * leValue rest

/-- Value produced by struct.unpack for one field: two's complement for
signed integer characters, the little-endian value otherwise (for f and d
this is the raw bit pattern; no claim inspects a float field's value). -/
def decodeField (t : CType) (bytes : List Nat) : Int :=
  let u : Int := (leValue bytes : Int)
  if ctypeSigned t ∧ 2 ^ (8 * ctypeSize t - 1) ≤ leValue bytes then
    u - 2 ^ (8 * ctypeSize t)
  else u

/-- Total size in bytes struct.unpack requires for a format list. -/
def structCalcsize (fmt : List CType) : Nat :=
  (fmt.map ctypeSize).sum

/-- Sequential field decoding of a buffer against a format list. -/
def structUnpackGo : List CType → List Nat → List Int
  | [], _ => []
  | t :: ts, bytes =>
    decodeField t (bytes.take (ctypeSize t)) :: structUnpackGo ts (bytes.drop (ctypeSize t))

/-- struct.unpack over a little-endian format: fails unless the buffer
length equals calcsize, else decodes each field in order. -/
def structUnpack (fmt : List CType) (bytes : List Nat) : Option (List Int) :=
  if bytes.length = structCalcsize fmt then some (structUnpackGo fmt bytes) else none

/-! ## The schema-driven PDU codec (src/src/protocol/pdu.py) -/

/-- State of one PDU helper object.  fields is the persistent decoded-field
dict: PDU.__init__ creates it once and decode only ever adds to it. -/
structure PDUState where
  name : String
  fieldsNames : List String
  fmt : List CType
  length : Nat
  fields : List (String × Int)
deriving DecidableEq, Repr

/-- PDU.__init__ / PDU._parse_pdu: collect field names and format
characters in schema order, sum the c_type_lengths widths, drop the leading
valid_bitfield name, and start with an empty fields dict. -/
def mkPDU (name : String) (structure_ : List (String × CType)) : PDUState :=
  { name := name
    fieldsNames := (structure_.map Prod.fst).drop 1
    fmt := structure_.map Prod.snd
    length := (structure_.map (fun p => c_type_lengths p.2)).sum
    fields := [] }

/-- The plugins/schema.py _PDU.__init__ variant, identical except that it
uses the c_type_lengths_plugins width table. -/
def mkPDUPlugins (name : String) (structure_ : List (String × CType)) : PDUState :=
  { name := name
    fieldsNames := (structure_.map Prod.fst).drop 1
    fmt := structure_.map Prod.snd
    length := (structure_.map (fun p => c_type_lengths_plugins p.2)).sum
    fields := [] }

/-- Python (valid_bitfield >> i) & 1 as a Bool (floor division and
Euclidean remainder agree with Python's semantics on these operands). -/
def pyBit (v : Int) (i : Nat) : Bool := (v / 2 ^ i) % 2 = 1

/-- The valid_fields list built by PDU.decode: the names whose index bit is
set in the valid bitfield, in index order. -/
def validOf (names : List String) (vb : Int) : List String :=
  (names.enum.filter (fun p => pyBit vb p.1)).map Prod.snd

/-- The assignment loop of PDU.decode: walk the field names, consuming one
unpacked value per name, storing it only when the name is in valid; fails
when the value iterator is exhausted early. -/
def assignFields (valid : List String) :
    List String → List Int → List (String × Int) → Option (List (String × Int))
  | [], _, fields => some fields
  | _ :: _, [], _ => none
  | n :: ns, v :: vs, fields =>
    if n ∈ valid then assignFields valid ns vs (dictSet fields n v)
    else assignFields valid ns vs fields

/-- PDU.decode: unpack the buffer, read the valid bitfield from the first
value, then run the assignment loop over the persistent fields dict. -/
def pduDecode (s : PDUState) (bytes : List Nat) : Option PDUState :=
  match structUnpack s.fmt bytes with
  | none => none
  | some [] => none
  | some (vb :: vs) =>
    match assignFields (validOf s.fieldsNames vb) s.fieldsNames vs s.fields with
    | none => none
    | some f => some { s with fields := f }

/-! ## Stream parsing (Protocol._parse_data, src/src/protocol/__init__.py) -/

/-- Errors raised by Protocol._parse_data.  The spec names the first three
FramingError, UnknownPDU and ShortFrame; the source raises plain Exceptions
with the quoted messages.  indexBeyondEnd is Python's IndexError reading
data[index+1] past the end; unpackFailed is a struct.error escaping
PDU.decode; outOfFuel marks fuel exhaustion of the embedding and is proved
unreachable below. -/
inductive ParseErr where
  | invalidStartByte   -- "Invalid start byte"  (FramingError)
  | invalidPDUType     -- "Invalid PDU type"    (UnknownPDU)
  | invalidDataLength  -- "Invalid data length" (ShortFrame)
  | indexBeyondEnd
  | unpackFailed
  | outOfFuel
deriving DecidableEq, Repr

/-- The PDU registry: Python dict pdu_id → PDU object. -/
def Registry : Type := List (Nat × PDUState)

/-- One emitted record: the PDU name and the fields dict handed to the
event handler at emit time. -/
def Record : Type := String × List (String × Int)

/-- The while-loop of Protocol._parse_data, with the records emitted before
a failure, the registry as mutated by the shared PDU objects, and the
exception if one was raised.  fuel only makes the recursion structural;
parse_fuel_sufficient shows it never runs out when started as parseData
does. -/
def parseLoop (startByte : Nat) (pdus : Registry) (data : List Nat) :
    Nat → Nat → List Record × Registry × Option ParseErr
  | 0, _ => ([], pdus, some .outOfFuel)
  | fuel + 1, index =>
    if h : index < data.length then
      if data.get ⟨index, h⟩ = startByte then
        if h2 : index + 1 < data.length then
          match dictGetNat pdus (data.get ⟨index + 1, h2⟩) with
          | none => ([], pdus, some .invalidPDUType)
          | some p =>
            if data.length - (index + 2) < p.length then ([], pdus, some .invalidDataLength)
            else
              match pduDecode p ((data.drop (index + 2)).take p.length) with
              | none => ([], pdus, some .unpackFailed)
              | some p' =>
                let rest := parseLoop startByte (dictSetNat pdus (data.get ⟨index + 1, h2⟩) p')
                  data fuel (index + 2 + p.length)
                ((p'.name, p'.fields) :: rest.1, rest.2)
        else ([], pdus, some .indexBeyondEnd)
      else ([], pdus, some .invalidStartByte)
    else ([], pdus, none)

/-- Protocol._parse_data on a fresh buffer: cursor 0, with enough fuel. -/
def parseData (startByte : Nat) (pdus : Registry) (data : List Nat) :
    List Record × Registry × Option ParseErr :=
  parseLoop startByte pdus data (data.length + 1) 0

/-- The fuel bound of parseData is never hit: each loop iteration advances
the cursor by at least two bytes. -/
theorem parse_fuel_sufficient (startByte : Nat) (data : List Nat) :
    ∀ fuel index pdus, data.length - index < fuel →
      (parseLoop startByte pdus data fuel index).2.2 ≠ some ParseErr.outOfFuel := by
  intro fuel
  induction fuel with
  | zero => intro index pdus h; omega
  | succ n ih =>
    intro index pdus h
    unfold parseLoop
    split
    case isFalse => simp
    case isTrue h1 =>
      split
      case isFalse => simp
      case isTrue =>
        split
        case isFalse => simp
        case isTrue h2 =>
          split
          · simp
          · split
            · simp
            · split
              · simp
              · exact ih _ _ (by omega)

/-! ## Concrete schema instances (spec section 8, scenarios E1/E2) -/

/-- The CORE PDU of scenario E1: a u32 valid_bitfield followed by eight u16
fields. -/
def coreStruct : List (String × CType) :=
  [("valid_bitfield", .I), ("rpm", .H), ("water", .H), ("tps", .H), ("batt", .H),
   ("ext5", .H), ("fuel", .H), ("lam", .H), ("spd", .H)]

/-- The CORE PDU helper object as built by PDU.__init__. -/
def corePDU : PDUState := mkPDU "core" coreStruct

/-- A registry with the CORE PDU registered under pdu_id 0. -/
def coreRegistry : Registry := [(0, corePDU)]

/-- Scenario E1 frame: valid_bitfield 0xFF, all eight fields valid. -/
def e1Frame : List Nat :=
  [1, 0, 255, 0, 0, 0, 232, 3, 80, 0, 10, 0, 32, 78, 20, 0, 188, 2, 55, 0, 200, 0]

/-- Scenario E2 frame: valid_bitfield 1, only rpm valid. -/
def e2Frame : List Nat :=
  [1, 0, 1, 0, 0, 0, 232, 3, 80, 0, 10, 0, 32, 78, 20, 0, 188, 2, 55, 0, 200, 0]

/-- Fields of every member of an enumerated list are members of the list. -/
theorem validOf_subset (names : List String) (vb : Int) :
    ∀ k, k ∈ validOf names vb → k ∈ names := by
  intro k hk
  unfold validOf at hk
  obtain ⟨⟨i, n⟩, hmem, rfl⟩ := List.mem_map.mp hk
  have h1 : ((i, n) : Nat × String) ∈ names.enum := (List.mem_filter.mp hmem).1
  have h2 : n ∈ names.enum.map Prod.snd := List.mem_map_of_mem _ h1
  rwa [List.enum_map_snd] at h2

/-- The assignment loop of PDU.decode adds exactly the names that are both
walked and valid; every key already present stays present. -/
theorem assignFields_isSome (valid : List String) :
    ∀ (names : List String) (vals : List Int) (fields f : List (String × Int)),
      assignFields valid names vals fields = some f →
      ∀ k, (dictGet f k).isSome ↔
        ((dictGet fields k).isSome ∨ (k ∈ names ∧ k ∈ valid)) := by
  intro names
  induction names with
  | nil =>
    intro vals fields f hf k
    cases hf
    simp [assignFields]
  | cons n ns ih =>
    intro vals fields f hf k
    cases vals with
    | nil => exact absurd hf (by simp [assignFields])
    | cons v vs =>
      by_cases hv : n ∈ valid
      · rw [assignFields, if_pos hv] at hf
        have h := ih vs (dictSet fields n v) f hf k
        rw [h, dictGet_dictSet]
        by_cases hk : n = k
        · subst hk
          simp [hv]
        · have : ¬k = n := fun e => hk e.symm
          simp [hk, this]
      · rw [assignFields, if_neg hv] at hf
        have h := ih vs fields f hf k
        rw [h]
        by_cases hk : k = n
        · subst hk
          simp [hv]
        · simp [hk]

/-- C1: corrected.  PDU.decode never removes entries from the persistent
fields dict, so after decoding, a key is present iff it was present before
the call or its validity bit is set in this frame's bitfield.  Fields with
a clear bit are absent only on a codec that never saw them valid. -/
theorem C1_valid_bitfield_amended (s : PDUState) (bytes : List Nat) (vb : Int)
    (vs : List Int) (s' : PDUState)
    (hu : structUnpack s.fmt bytes = some (vb :: vs))
    (hd : pduDecode s bytes = some s') (k : String) :
    (dictGet s'.fields k).isSome ↔
      ((dictGet s.fields k).isSome ∨ k ∈ validOf s.fieldsNames vb) := by
  unfold pduDecode at hd
  split at hd
  · exact absurd hd (by simp)
  · exact absurd hd (by simp)
  · rename_i vb' vs' heq
    rw [hu] at heq
    have heq2 := List.cons.inj (Option.some.inj heq)
    obtain ⟨rfl, rfl⟩ := heq2
    split at hd
    · exact absurd hd (by simp)
    · rename_i f ha
      have hs' : s'.fields = f := by
        cases hd
        rfl
      rw [hs']
      rw [assignFields_isSome _ _ _ _ _ ha k]
      constructor
      · rintro (h | ⟨_, hin⟩)
        · exact Or.inl h
        · exact Or.inr hin
      · rintro (h | h)
        · exact Or.inl h
        · exact Or.inr ⟨validOf_subset _ _ _ h, h⟩

/-- Witness for C1: decoding the E2 frame body on a fresh CORE codec leaves
water (validity bit clear) absent from the fields dict. -/
theorem C1_valid_bitfield_amended_witness :
    ¬(dictGet ((pduDecode corePDU (e2Frame.drop 2)).getD corePDU).fields "water").isSome := by
  have h := C1_valid_bitfield_amended corePDU (e2Frame.drop 2) 1
    [1000, 80, 10, 20000, 20, 700, 55, 200]
    ((pduDecode corePDU (e2Frame.drop 2)).getD corePDU)
    (by decide) (by decide) "water"
  rw [h]
  decide

/-- C1 counterexample: after decoding the E1 frame (all bits set) and then
the E2 frame (valid_bitfield 1, so only the rpm bit is set) on the same
codec, the record emitted for the second frame still maps water to 80 even
though water's validity bit (pyBit 1 1) is clear — the spec says exactly
the bit-set fields appear. -/
theorem C1_valid_bitfield_counterexample :
    (parseData 1 coreRegistry (e1Frame ++ e2Frame)).2.2 = none ∧
    (parseData 1 coreRegistry (e1Frame ++ e2Frame)).1.length = 2 ∧
    dictGet ((parseData 1 coreRegistry (e1Frame ++ e2Frame)).1.getD 1 ("", [])).2 "water"
      = some 80 ∧
    pyBit 1 1 = false := by
  decide

/-- C2: confirmed.  At any cursor into any buffer, Protocol._parse_data
raises "Invalid start byte" when the byte at the cursor differs from the
start byte, "Invalid PDU type" when the byte at cursor+1 is not a key of
the registry, and "Invalid data length" when fewer than 2 + fixed_length
bytes remain; in each case no record is emitted. -/
theorem C2_decode_errors (startByte : Nat) (pdus : Registry) (data : List Nat)
    (fuel index : Nat) (h : index < data.length) :
    (data.get ⟨index, h⟩ ≠ startByte →
      parseLoop startByte pdus data (fuel + 1) index = ([], pdus, some .invalidStartByte))
    ∧ (∀ h2 : index + 1 < data.length, data.get ⟨index, h⟩ = startByte →
        dictGetNat pdus (data.get ⟨index + 1, h2⟩) = none →
        parseLoop startByte pdus data (fuel + 1) index = ([], pdus, some .invalidPDUType))
    ∧ (∀ h2 : index + 1 < data.length, ∀ p : PDUState, data.get ⟨index, h⟩ = startByte →
        dictGetNat pdus (data.get ⟨index + 1, h2⟩) = some p →
        data.length - index < 2 + p.length →
        parseLoop startByte pdus data (fuel + 1) index = ([], pdus, some .invalidDataLength)) := by
  refine ⟨?_, ?_, ?_⟩
  · intro hs
    unfold parseLoop
    rw [dif_pos h, if_neg hs]
  · intro h2 hs hl
    unfold parseLoop
    rw [dif_pos h, if_pos hs, dif_pos h2, hl]
  · intro h2 p hs hl hlen
    have hcond : data.length - (index + 2) < p.length := by omega
    unfold parseLoop
    rw [dif_pos h, if_pos hs, dif_pos h2, hl]
    exact if_pos hcond

/-- Witness for C2: a one-byte buffer starting with 2 against start byte 1
fails with the framing error and emits nothing. -/
theorem C2_decode_errors_witness :
    parseLoop 1 [] [2] 1 0 = ([], [], some ParseErr.invalidStartByte) :=
  (C2_decode_errors 1 [] [2] 0 0 (by decide)).1 (by decide)

/-! ## C8: descriptor widths (src/src/plugins/schema.py vs protocol/pdu.py) -/

/-- A CORE PDU carrying a float64 epoch field, as packed by the repository
tests (struct format BBId followed by eight H fields after the header). -/
def coreEpochStruct : List (String × CType) :=
  [("valid_bitfield", .I), ("epoch", .d), ("rpm", .H), ("water", .H), ("tps", .H),
   ("batt", .H), ("ext5", .H), ("fuel", .H), ("lam", .H), ("spd", .H)]

/-- C8: code_bug.  protocol/pdu.py's width table matches the struct module
(8 bytes for d), but plugins/schema.py counts only 4 bytes for the 64-bit
float d, so the plugins descriptor of any PDU with a float64 field (such as
epoch) gets fixed_length 24 while its own struct format needs 28 bytes, and
_PDU.decode necessarily fails on the 24-byte slice _parse_data hands it. -/
theorem C8_wire_width_eval :
    c_type_lengths_plugins CType.d = 4 ∧
    ctypeSize CType.d = 8 ∧
    (∀ t, c_type_lengths t = ctypeSize t) ∧
    (mkPDUPlugins "core" coreEpochStruct).length = 24 ∧
    (mkPDU "core" coreEpochStruct).length = 28 ∧
    structCalcsize (mkPDUPlugins "core" coreEpochStruct).fmt = 28 ∧
    (∀ bytes : List Nat, bytes.length = 24 →
      pduDecode (mkPDUPlugins "core" coreEpochStruct) bytes = none) := by
  refine ⟨rfl, rfl, ?_, rfl, rfl, rfl, ?_⟩
  · intro t
    cases t <;> rfl
  · intro bytes hlen
    have hne : bytes.length ≠ structCalcsize (mkPDUPlugins "core" coreEpochStruct).fmt := by
      rw [hlen]
      decide
    have h0 : structUnpack (mkPDUPlugins "core" coreEpochStruct).fmt bytes = none := by
      unfold structUnpack
      rw [if_neg hne]
    unfold pduDecode
    rw [h0]

/-- Witness for C8: a 24-byte zero buffer (the exact slice length
_parse_data passes for this descriptor) fails to decode. -/
theorem C8_wire_width_eval_witness :
    pduDecode (mkPDUPlugins "core" coreEpochStruct) (List.replicate 24 0) = none :=
  C8_wire_width_eval.2.2.2.2.2.2 (List.replicate 24 0) (by decide)

/-! ## The staging store (src/serverdatabase.py) and ingestion handler -/

/-- One sensor table: rows (time, value) in insertion (rowid) order. -/
abbrev SensorTable : Type := List (ℚ × ℚ)

/-- The staging database: one table per created sensor. -/
abbrev Database : Type := List (String × SensorTable)

/-- ServerDatabase.insert_sensor_data: INSERT appends a row in insertion
order; sqlite raises if the table was never created. -/
def insert_sensor_data (db : Database) (sensor : String) (t v : ℚ) : Option Database :=
  match dictGet db sensor with
  | none => none
  | some rows => some (dictSet db sensor (rows ++ [(t, v)]))

/-- Server._save_sensor_data_to_database: insert each sample in order. -/
def saveSensorData (db : Database) : List (String × ℚ × ℚ) → Option Database
  | [] => some db
  | (name, t, v) :: rest =>
    match insert_sensor_data db name t v with
    | none => none
    | some db' => saveSensorData db' rest

/-- Python exception outcomes of the ingestion handler. -/
inductive ServeFieldsErr where
  | keyError     -- del fields["epoch"] with no epoch key
  | noSuchTable  -- sqlite: INSERT into a table never created
deriving DecidableEq, Repr

/-- Server._protocol_serve_fields: read the epoch field if present, else
take the wall clock; then unconditionally del fields["epoch"] (KeyError
when absent); then emit each remaining field as (name, epoch, value) and
insert all of them into the database. -/
def protocol_serve_fields (fields : List (String × ℚ)) (now : ℚ) (db : Database) :
    Except ServeFieldsErr Database :=
  let epoch : ℚ :=
    match dictGet fields "epoch" with
    | some e => e
    | none => now
  match dictDelete fields "epoch" with
  | none => .error .keyError
  | some fields' =>
    match saveSensorData db (fields'.map (fun p => (p.1, epoch, p.2))) with
    | none => .error .noSuchTable
    | some db' => .ok db'

/-- C3: code_bug.  With an epoch field the record is stamped with it and
every other field is appended as a sample, as the claim says; but a record
without an epoch field makes _protocol_serve_fields raise KeyError at
del fields["epoch"] (contradicting the comment right above that line) and
nothing is appended, instead of stamping with the wall clock. -/
theorem C3_epoch_stamping_eval :
    protocol_serve_fields [("rpm", 1000)] 5 [("rpm", [])]
      = .error .keyError ∧
    protocol_serve_fields [("epoch", 3), ("rpm", 1000), ("water", 80)] 5
      [("rpm", []), ("water", [])]
      = .ok [("rpm", [(3, 1000)]), ("water", [(3, 80)])] := by
  constructor
  · rfl
  · rfl

/-! ## Store query primitives (src/serverdatabase.py) -/

/-- The newest-first ordering used by ORDER BY time DESC (modelled as a
stable sort on this relation). -/
def rowGE (a b : ℚ × ℚ) : Prop := b.1 ≤ a.1

instance : DecidableRel rowGE := fun a b => inferInstanceAs (Decidable (b.1 ≤ a.1))

instance : IsTotal (ℚ × ℚ) rowGE := ⟨fun a b => le_total b.1 a.1⟩

instance : IsTrans (ℚ × ℚ) rowGE := ⟨fun _ _ _ h1 h2 => le_trans h2 h1⟩

/-- ORDER BY time DESC over a table. -/
def sortTimeDesc (rows : SensorTable) : SensorTable := List.insertionSort rowGE rows

/-- select_sensor_data_between_times: WHERE time BETWEEN lo AND hi with no
ORDER BY, so rows come back in rowid (insertion) order. -/
def select_between_times (rows : SensorTable) (lo hi : ℚ) : SensorTable :=
  rows.filter (fun r => decide (lo ≤ r.1 ∧ r.1 ≤ hi))

/-- select_sensor_data_top_n_entries: ORDER BY time DESC LIMIT n. -/
def select_top_n (rows : SensorTable) (n : Nat) : SensorTable :=
  (sortTimeDesc rows).take n

/-- select_sensor_data_top_n_entries_and_between_times: WHERE time BETWEEN
lo AND hi ORDER BY time DESC LIMIT n. -/
def select_top_n_between (rows : SensorTable) (n : Nat) (lo hi : ℚ) : SensorTable :=
  (sortTimeDesc (select_between_times rows lo hi)).take n

/-! ## The query server's sensor-data path (src/src/server.py) -/

/-- One sample as serialised into a response: {"time": t, "value": v}. -/
structure Sample where
  time : ℚ
  value : ℚ
deriving DecidableEq, Repr

/-- Row → response sample. -/
def rowToSample (r : ℚ × ℚ) : Sample := ⟨r.1, r.2⟩

/-- Ascending-time ordering on samples. -/
def timeLE (a b : Sample) : Prop := a.time ≤ b.time

instance : DecidableRel timeLE := fun a b => inferInstanceAs (Decidable (a.time ≤ b.time))

/-- One recognised (or not) filter of a request, already split on =. -/
inductive FilterArg where
  | amount (n : Nat)
  | timesince (t : ℚ)
  | other (name : String)
deriving DecidableEq, Repr

/-- The filters dict handed to the dataset handlers. -/
structure EffFilters where
  amount : Option Nat
  timesince : Option ℚ
deriving DecidableEq, Repr

/-- The filter loop of _restful_server_get_request: each amount / timesince
entry overwrites the key, any other name raises NotImplementedError. -/
def applyFilters : EffFilters → List FilterArg → Except Unit EffFilters
  | f, [] => .ok f
  | f, .amount n :: rest => applyFilters { f with amount := some n } rest
  | f, .timesince t :: rest => applyFilters { f with timesince := some t } rest
  | _, .other _ :: _ => .error ()

/-- _restful_server_get_request seeds filters = {"amount": 99} before
walking the request's filters. -/
def buildFilters (args : List FilterArg) : Except Unit EffFilters :=
  applyFilters { amount := some 99, timesince := none } args

/-- Server._restful_serve_sensor_get_data: pick the store primitive from
the filters present, serialise rows to samples, then reverse. -/
def serve_sensor_get_data (rows : SensorTable) (f : EffFilters) (now : ℚ) : List Sample :=
  let raw : SensorTable :=
    match f.amount, f.timesince with
    | some n, none => select_top_n rows n
    | none, some ts => select_between_times rows ts now
    | some n, some ts => select_top_n_between rows n ts now
    | none, none => []
  (raw.map rowToSample).reverse

/-- C4 counterexample: the server seeds amount=99, so with no filters at
all the result of a sensor query is the full top-99 series, not the empty
list the claim requires; and with timesince alone the result is the
top-99-in-range query (ascending after reversal), not the reversed range
query. -/
theorem C4_filter_dispatch_counterexample :
    buildFilters [] = .ok ⟨some 99, none⟩ ∧
    serve_sensor_get_data [(1, 5)] ⟨some 99, none⟩ 10 ≠ [] ∧
    buildFilters [.timesince 0] = .ok ⟨some 99, some 0⟩ ∧
    serve_sensor_get_data [(1, 100), (2, 200)] ⟨some 99, some 0⟩ 10
      ≠ ((select_between_times [(1, 100), (2, 200)] 0 10).map rowToSample).reverse := by
  refine ⟨rfl, by decide, rfl, by decide⟩

/-- C4: corrected.  With the seeded default amount=99: amount alone queries
top_n(sensor, n); timesince alone queries top_n_in_range(sensor, 99, t,
now); both query top_n_in_range(sensor, n, t, now); and no filters at all
query top_n(sensor, 99) — never the empty list and never the plain range
query. -/
theorem C4_filter_dispatch_amended (rows : SensorTable) (now t : ℚ) (n : Nat) :
    (buildFilters [.amount n] = .ok ⟨some n, none⟩ ∧
      serve_sensor_get_data rows ⟨some n, none⟩ now
        = ((select_top_n rows n).map rowToSample).reverse) ∧
    (buildFilters [.timesince t] = .ok ⟨some 99, some t⟩ ∧
      serve_sensor_get_data rows ⟨some 99, some t⟩ now
        = ((select_top_n_between rows 99 t now).map rowToSample).reverse) ∧
    (buildFilters [.amount n, .timesince t] = .ok ⟨some n, some t⟩ ∧
      serve_sensor_get_data rows ⟨some n, some t⟩ now
        = ((select_top_n_between rows n t now).map rowToSample).reverse) ∧
    (buildFilters [] = .ok ⟨some 99, none⟩ ∧
      serve_sensor_get_data rows ⟨some 99, none⟩ now
        = ((select_top_n rows 99).map rowToSample).reverse) :=
  ⟨⟨rfl, rfl⟩, ⟨rfl, rfl⟩, ⟨rfl, rfl⟩, ⟨rfl, rfl⟩⟩

/-! ## C7: top-n query properties -/

/-- C7: confirmed.  top_n returns a newest-first-sorted selection of n rows
that, together with the leftover rows, permutes the table, and every
leftover row's epoch is at most every selected row's epoch; n = 0 yields
the empty list and n at least the series length yields the whole series
newest-first. -/
theorem C7_top_n (rows : SensorTable) (n : Nat) :
    (select_top_n rows n).length = min n rows.length ∧
    List.Sorted rowGE (select_top_n rows n) ∧
    (∃ rest, (select_top_n rows n ++ rest).Perm rows ∧
      ∀ x ∈ select_top_n rows n, ∀ y ∈ rest, y.1 ≤ x.1) ∧
    (n = 0 → select_top_n rows n = []) ∧
    (rows.length ≤ n → (select_top_n rows n).Perm rows ∧
      List.Sorted rowGE (select_top_n rows n)) := by
  have hsorted : List.Sorted rowGE (sortTimeDesc rows) :=
    List.sorted_insertionSort rowGE rows
  have hperm : (sortTimeDesc rows).Perm rows := List.perm_insertionSort rowGE rows
  have hsplit : select_top_n rows n ++ (sortTimeDesc rows).drop n = sortTimeDesc rows :=
    List.take_append_drop n (sortTimeDesc rows)
  refine ⟨?_, ?_, ?_, ?_, ?_⟩
  · rw [select_top_n, List.length_take, hperm.length_eq]
  · exact List.Pairwise.sublist (List.take_sublist n _) hsorted
  · refine ⟨(sortTimeDesc rows).drop n, ?_, ?_⟩
    · rw [hsplit]
      exact hperm
    · intro x hx y hy
      have hpw : List.Pairwise rowGE (select_top_n rows n ++ (sortTimeDesc rows).drop n) := by
        rw [hsplit]
        exact hsorted
      exact (List.pairwise_append.mp hpw).2.2 x hx y hy
  · intro hn
    subst hn
    rfl
  · intro hle
    have hall : select_top_n rows n = sortTimeDesc rows := by
      rw [select_top_n]
      exact List.take_of_length_le (by rw [hperm.length_eq]; exact hle)
    rw [hall]
    exact ⟨hperm, hsorted⟩

/-- Witness for C7: top_n with n = 0 on a two-row series is empty. -/
theorem C7_top_n_witness : select_top_n [((1 : ℚ), (1 : ℚ)), (2, 2)] 0 = [] :=
  (C7_top_n [(1, 1), (2, 2)] 0).2.2.2.1 rfl

/-! ## C5: result ordering after the reversal step -/

/-- s1 occurs at a strictly earlier position than s2. -/
def listedBefore (l : List Sample) (s1 s2 : Sample) : Prop :=
  ∃ i j : Fin l.length, i.1 < j.1 ∧ l.get i = s1 ∧ l.get j = s2

instance (l : List Sample) (s1 s2 : Sample) : Decidable (listedBefore l s1 s2) := by
  unfold listedBefore
  infer_instance

/-- Any amount-filtered result of the sensor-data path is ascending in
time: it is a reversed prefix of a descending sort. -/
theorem serve_sensor_get_data_sorted (rows : SensorTable) (f : EffFilters) (now : ℚ)
    (n : Nat) (hf : f.amount = some n) :
    List.Pairwise timeLE (serve_sensor_get_data rows f now) := by
  have key : ∀ raw : SensorTable, List.Sorted rowGE raw →
      List.Pairwise timeLE ((raw.map rowToSample).reverse) := by
    intro raw hraw
    rw [List.pairwise_reverse]
    rw [List.pairwise_map]
    exact hraw.imp (fun h => h)
  obtain ⟨a, ts⟩ := f
  cases hf
  cases ts with
  | none =>
    exact key _ (List.Pairwise.sublist (List.take_sublist n _)
      (List.sorted_insertionSort rowGE rows))
  | some t =>
    exact key _ (List.Pairwise.sublist (List.take_sublist n _)
      (List.sorted_insertionSort rowGE _))

/-- C5: corrected.  For amount-filtered queries (the only kind the running
server issues, and the top_n / top_n_in_range primitives of the claim) the
reversal step yields ascending time order, so a strictly-older sample is
listed before a strictly-newer one; the plain range primitive, which
returns insertion order, is reversed into newest-first order instead (see
the counterexample). -/
theorem C5_ordering_amended (rows : SensorTable) (f : EffFilters) (now : ℚ)
    (n : Nat) (hf : f.amount = some n) :
    List.Pairwise timeLE (serve_sensor_get_data rows f now) ∧
    ∀ s1 s2 : Sample, s1 ∈ serve_sensor_get_data rows f now →
      s2 ∈ serve_sensor_get_data rows f now → s1.time < s2.time →
      listedBefore (serve_sensor_get_data rows f now) s1 s2 := by
  have hsort := serve_sensor_get_data_sorted rows f now n hf
  refine ⟨hsort, ?_⟩
  intro s1 s2 h1 h2 hlt
  obtain ⟨i, hi⟩ := List.mem_iff_get.mp h1
  obtain ⟨j, hj⟩ := List.mem_iff_get.mp h2
  rcases Nat.lt_trichotomy i.1 j.1 with h | h | h
  · exact ⟨i, j, h, hi, hj⟩
  · exfalso
    have : s1 = s2 := by
      rw [← hi, ← hj]
      congr 1
      exact Fin.ext h
    rw [this] at hlt
    exact lt_irrefl _ hlt
  · exfalso
    have := List.pairwise_iff_get.mp hsort j i h
    rw [hi, hj] at this
    exact absurd hlt (not_lt.mpr this)

/-- Witness for C5: on a two-row series under amount=2, the older sample is
listed before the newer one. -/
theorem C5_ordering_amended_witness :
    listedBefore (serve_sensor_get_data [((1 : ℚ), (1 : ℚ)), (2, 2)] ⟨some 2, none⟩ 0)
      ⟨1, 1⟩ ⟨2, 2⟩ :=
  (C5_ordering_amended [(1, 1), (2, 2)] ⟨some 2, none⟩ 0 2 rfl).2 ⟨1, 1⟩ ⟨2, 2⟩
    (by decide) (by decide) (by norm_num)

/-- C5 counterexample: the sample (1,100) was appended before (2,200), but
a timesince-only query goes through select_between_times (insertion order)
and the reversal step then lists the newer sample first, so the claim's
epoch-ascending order fails for the range primitive. -/
theorem C5_ordering_counterexample :
    serve_sensor_get_data [(1, 100), (2, 200)] ⟨none, some 0⟩ 10
      = [⟨2, 200⟩, ⟨1, 100⟩] ∧
    ¬listedBefore (serve_sensor_get_data [(1, 100), (2, 200)] ⟨none, some 0⟩ 10)
      ⟨1, 100⟩ ⟨2, 200⟩ := by
  constructor
  · rfl
  · decide

/-! ## C6: the /sensors route and its epoch header (Server._restful_serve_sensors) -/

/-- One configured sensor: name, group and enable flag. -/
structure SensorCfg where
  name : String
  group : String
  enable : Bool
deriving DecidableEq, Repr

/-- The per-group part of a response: sensor name → serialised samples. -/
abbrev GroupResult : Type := List (String × List Sample)

/-- The result object of a /sensors response: group → sensor → samples. -/
abbrev RouteResult : Type := List (String × GroupResult)

/-- if group not in response: response[group] = {}. -/
def ensureGroup (resp : RouteResult) (g : String) : RouteResult :=
  if (dictGet resp g).isSome then resp else dictSet resp g []

/-- response[group][sensor] = data (the group key is always present when
the source executes this line). -/
def setSensorData (resp : RouteResult) (g s : String) (data : List Sample) : RouteResult :=
  dictSet resp g (dictSet ((dictGet resp g).getD []) s data)

/-- The /sensors loop of _restful_serve_sensors: for each enabled sensor,
ensure its group key, fetch its data (the pure fetch is written out at each
use), store non-empty series under its group, and bump the epoch when the
series' last sample is newer than the running epoch. -/
def serveLoopAll (db : Database) (f : EffFilters) (now : ℚ) :
    List SensorCfg → RouteResult → ℚ → RouteResult × ℚ
  | [], resp, ep => (resp, ep)
  | c :: rest, resp, ep =>
    if c.enable then
      if 0 < (serve_sensor_get_data ((dictGet db c.name).getD []) f now).length then
        serveLoopAll db f now rest
          (setSensorData (ensureGroup resp c.group) c.group c.name
            (serve_sensor_get_data ((dictGet db c.name).getD []) f now))
          (if ep < ((serve_sensor_get_data ((dictGet db c.name).getD [])
                f now).getLastD ⟨0, 0⟩).time
           then ((serve_sensor_get_data ((dictGet db c.name).getD [])
                f now).getLastD ⟨0, 0⟩).time
           else ep)
      else serveLoopAll db f now rest (ensureGroup resp c.group) ep
    else serveLoopAll db f now rest resp ep

/-- The /sensors/<group> loop of _restful_serve_sensors: same as the full
loop but restricted to sensors of the requested group, with the group key
pre-created by the caller. -/
def serveLoopGroup (db : Database) (f : EffFilters) (now : ℚ) (g : String) :
    List SensorCfg → RouteResult → ℚ → RouteResult × ℚ
  | [], resp, ep => (resp, ep)
  | c :: rest, resp, ep =>
    if c.enable then
      if c.group = g then
        if 0 < (serve_sensor_get_data ((dictGet db c.name).getD []) f now).length then
          serveLoopGroup db f now g rest
            (setSensorData resp c.group c.name
              (serve_sensor_get_data ((dictGet db c.name).getD []) f now))
            (if ep < ((serve_sensor_get_data ((dictGet db c.name).getD [])
                  f now).getLastD ⟨0, 0⟩).time
             then ((serve_sensor_get_data ((dictGet db c.name).getD [])
                  f now).getLastD ⟨0, 0⟩).time
             else ep)
        else serveLoopGroup db f now g rest resp ep
      else serveLoopGroup db f now g rest resp ep
    else serveLoopGroup db f now g rest resp ep

/-- Server._restful_serve_sensors: the /sensors route loops all sensors;
the /sensors/<x> route first checks x for membership in the sensors dict
keys (as the source does) and pre-creates response[x]; anything longer is
FileNotFoundError (404). -/
def serveSensors (cfg : List SensorCfg) (db : Database) (datasets : List String)
    (f : EffFilters) (now : ℚ) : Except Unit (RouteResult × ℚ) :=
  if datasets.length = 1 then .ok (serveLoopAll db f now cfg [] 0)
  else if datasets.length = 2 then
    if datasets.getD 1 "" ∈ cfg.map SensorCfg.name then
      .ok (serveLoopGroup db f now (datasets.getD 1 "") cfg
        (dictSet [] (datasets.getD 1 "") []) 0)
    else .error ()
  else .error ()

/-- Times of the samples of one serialised series. -/
def sensorTimes (l : List Sample) : List ℚ := l.map Sample.time

/-- Times of all samples of one group. -/
def groupTimes (g : GroupResult) : List ℚ :=
  g.foldr (fun p acc => sensorTimes p.2 ++ acc) []

/-- Times of all samples of a response. -/
def allTimes (r : RouteResult) : List ℚ :=
  r.foldr (fun p acc => groupTimes p.2 ++ acc) []

/-- All sensor names appearing in a response. -/
def sensorKeys (r : RouteResult) : List String :=
  r.foldr (fun p acc => p.2.map Prod.fst ++ acc) []

/-- Fold of max with base 0 over a list of times. -/
def maxT (l : List ℚ) : ℚ := l.foldr max 0

@[simp] theorem maxT_nil : maxT [] = 0 := rfl

@[simp] theorem maxT_cons (x : ℚ) (l : List ℚ) : maxT (x :: l) = max x (maxT l) := rfl

theorem maxT_nonneg (l : List ℚ) : 0 ≤ maxT l := by
  induction l with
  | nil => exact le_refl 0
  | cons x l ih => exact le_trans ih (le_max_right x (maxT l))

theorem maxT_append (a b : List ℚ) : maxT (a ++ b) = max (maxT a) (maxT b) := by
  induction a with
  | nil =>
    simp [max_eq_right (maxT_nonneg b)]
  | cons x a ih =>
    simp only [List.cons_append, maxT_cons, ih, max_assoc]

theorem mem_le_maxT (l : List ℚ) (x : ℚ) (hx : x ∈ l) : x ≤ maxT l := by
  induction l with
  | nil => cases hx
  | cons y l ih =>
    rcases List.mem_cons.mp hx with rfl | hmem
    · exact le_max_left x (maxT l)
    · exact le_trans (ih hmem) (le_max_right y (maxT l))

theorem maxT_le (l : List ℚ) (b : ℚ) (hb : 0 ≤ b) (h : ∀ x ∈ l, x ≤ b) : maxT l ≤ b := by
  induction l with
  | nil => exact hb
  | cons y l ih =>
    exact max_le (h y (List.mem_cons_self y l)) (ih (fun x hx => h x (List.mem_cons_of_mem y hx)))

theorem maxT_eq_of_mem_of_le (l : List ℚ) (m : ℚ) (hm : m ∈ l) (hle : ∀ x ∈ l, x ≤ m) :
    maxT l = max 0 m := by
  refine le_antisymm ?_ ?_
  · exact maxT_le l (max 0 m) (le_max_left 0 m) (fun x hx => le_trans (hle x hx) (le_max_right 0 m))
  · exact max_le (maxT_nonneg l) (mem_le_maxT l m hm)

@[simp] theorem groupTimes_nil : groupTimes [] = [] := rfl

@[simp] theorem groupTimes_cons (p : String × List Sample) (rest : GroupResult) :
    groupTimes (p :: rest) = sensorTimes p.2 ++ groupTimes rest := rfl

theorem groupTimes_append (a b : GroupResult) :
    groupTimes (a ++ b) = groupTimes a ++ groupTimes b := by
  induction a with
  | nil => rfl
  | cons p a ih => simp [ih]

@[simp] theorem allTimes_nil : allTimes [] = [] := rfl

@[simp] theorem allTimes_cons (p : String × GroupResult) (rest : RouteResult) :
    allTimes (p :: rest) = groupTimes p.2 ++ allTimes rest := rfl

theorem allTimes_append (a b : RouteResult) :
    allTimes (a ++ b) = allTimes a ++ allTimes b := by
  induction a with
  | nil => rfl
  | cons p a ih => simp [ih]

@[simp] theorem sensorKeys_nil : sensorKeys [] = [] := rfl

@[simp] theorem sensorKeys_cons (p : String × GroupResult) (rest : RouteResult) :
    sensorKeys (p :: rest) = p.2.map Prod.fst ++ sensorKeys rest := rfl

/-- Absent keys look up to none. -/
theorem dictGet_eq_none_of_not_mem_keys {β : Type} (d : List (String × β)) (k : String)
    (h : k ∉ d.map Prod.fst) : dictGet d k = none := by
  induction d with
  | nil => rfl
  | cons p rest ih =>
    obtain ⟨a, b⟩ := p
    simp only [List.map_cons, List.mem_cons, not_or] at h
    rw [dictGet_cons, if_neg (fun e => h.1 e.symm), ih h.2]

/-- Key membership after a dict assignment. -/
theorem mem_keys_dictSet {β : Type} (d : List (String × β)) (k x : String) (v : β) :
    x ∈ (dictSet d k v).map Prod.fst ↔ x ∈ d.map Prod.fst ∨ x = k := by
  induction d with
  | nil => simp [dictSet]
  | cons p rest ih =>
    obtain ⟨a, b⟩ := p
    by_cases hak : a = k
    · subst hak
      rw [show dictSet ((a, b) :: rest) a v = (a, v) :: rest from by simp [dictSet]]
      simp only [List.map_cons, List.mem_cons]
      tauto
    · rw [show dictSet ((a, b) :: rest) k v = (a, b) :: dictSet rest k v from by
        simp [dictSet, hak]]
      simp only [List.map_cons, List.mem_cons, ih]
      tauto

/-- A present key stays present after any dict assignment. -/
theorem dictGet_dictSet_isSome {β : Type} (d : List (String × β)) (k k' : String) (v : β)
    (h : (dictGet d k').isSome) : (dictGet (dictSet d k v) k').isSome := by
  rw [dictGet_dictSet]
  split
  · simp
  · exact h

/-- ensureGroup adds no samples. -/
theorem allTimes_ensureGroup (resp : RouteResult) (g : String) :
    allTimes (ensureGroup resp g) = allTimes resp := by
  unfold ensureGroup
  split
  · rfl
  · rename_i h
    rw [dictSet_fresh_append _ _ _ (by
      cases hd : dictGet resp g
      · rfl
      · rw [hd] at h; simp at h)]
    rw [allTimes_append]
    simp

theorem sensorKeys_append (a b : RouteResult) :
    sensorKeys (a ++ b) = sensorKeys a ++ sensorKeys b := by
  induction a with
  | nil => rfl
  | cons p a ih => simp [ih]

/-- ensureGroup adds no sensor keys. -/
theorem sensorKeys_ensureGroup (resp : RouteResult) (g : String) :
    sensorKeys (ensureGroup resp g) = sensorKeys resp := by
  unfold ensureGroup
  split
  · rfl
  · rename_i h
    rw [dictSet_fresh_append _ _ _ (by
      cases hd : dictGet resp g
      · rfl
      · rw [hd] at h; simp at h)]
    rw [sensorKeys_append]
    simp

/-- ensureGroup makes its group key present. -/
theorem dictGet_ensureGroup_isSome (resp : RouteResult) (g : String) :
    (dictGet (ensureGroup resp g) g).isSome := by
  unfold ensureGroup
  split
  · assumption
  · rw [dictGet_dictSet]
    simp

/-- ensureGroup keeps present keys present. -/
theorem dictGet_ensureGroup_mono (resp : RouteResult) (g g' : String)
    (h : (dictGet resp g').isSome) : (dictGet (ensureGroup resp g) g').isSome := by
  unfold ensureGroup
  split
  · exact h
  · exact dictGet_dictSet_isSome _ _ _ _ h

/-- Assigning a series to a sensor under a present group: the sample times
of the response gain exactly that series' times. -/
theorem maxT_allTimes_setSensorData (resp : RouteResult) (g s : String)
    (data : List Sample) (hg : (dictGet resp g).isSome) (hs : s ∉ sensorKeys resp) :
    maxT (allTimes (setSensorData resp g s data))
      = max (maxT (allTimes resp)) (maxT (sensorTimes data)) := by
  induction resp with
  | nil => simp at hg
  | cons p rest ih =>
    obtain ⟨a, gd⟩ := p
    by_cases hag : a = g
    · subst hag
      have hd : dictGet ((a, gd) :: rest) a = some gd := by simp
      have hsgd : s ∉ gd.map Prod.fst := by
        intro hmem
        exact hs (by
          rw [sensorKeys_cons]
          exact List.mem_append_left _ hmem)
      have hfresh : dictSet gd s data = gd ++ [(s, data)] :=
        dictSet_fresh_append _ _ _ (dictGet_eq_none_of_not_mem_keys _ _ hsgd)
      have hset : setSensorData ((a, gd) :: rest) a s data
          = (a, dictSet gd s data) :: rest := by
        unfold setSensorData
        rw [hd]
        simp [dictSet]
      rw [hset, allTimes_cons, hfresh, groupTimes_append]
      simp only [allTimes_cons, maxT_append, groupTimes_cons, groupTimes_nil,
        List.append_nil]
      rw [max_assoc, max_comm (maxT (sensorTimes data)), ← max_assoc]
    · have hd : dictGet ((a, gd) :: rest) g = dictGet rest g := by simp [hag]
      have hset : setSensorData ((a, gd) :: rest) g s data
          = (a, gd) :: setSensorData rest g s data := by
        unfold setSensorData
        rw [hd]
        simp [dictSet, hag]
      have hs' : s ∉ sensorKeys rest := by
        intro hmem
        exact hs (by
          rw [sensorKeys_cons]
          exact List.mem_append_right _ hmem)
      rw [hset, allTimes_cons, allTimes_cons]
      rw [maxT_append, maxT_append, ih (by rw [hd] at hg; exact hg) hs']
      rw [max_assoc]

/-- Sensor keys after assigning a series: the old keys plus that sensor. -/
theorem mem_sensorKeys_setSensorData (resp : RouteResult) (g s : String)
    (data : List Sample) (x : String) :
    x ∈ sensorKeys (setSensorData resp g s data) ↔ x ∈ sensorKeys resp ∨ x = s := by
  induction resp with
  | nil =>
    unfold setSensorData
    simp [dictSet]
  | cons p rest ih =>
    obtain ⟨a, gd⟩ := p
    by_cases hag : a = g
    · subst hag
      have hset : setSensorData ((a, gd) :: rest) a s data
          = (a, dictSet gd s data) :: rest := by
        unfold setSensorData
        simp [dictSet]
      rw [hset, sensorKeys_cons, sensorKeys_cons]
      simp only [List.mem_append, mem_keys_dictSet]
      tauto
    · have hset : setSensorData ((a, gd) :: rest) g s data
          = (a, gd) :: setSensorData rest g s data := by
        unfold setSensorData
        simp [dictSet, hag]
      rw [hset, sensorKeys_cons, sensorKeys_cons]
      simp only [List.mem_append, ih]
      tauto

/-- setSensorData keeps present group keys present. -/
theorem dictGet_setSensorData_isSome (resp : RouteResult) (g s g' : String)
    (data : List Sample) (h : (dictGet resp g').isSome) :
    (dictGet (setSensorData resp g s data) g').isSome :=
  dictGet_dictSet_isSome _ _ _ _ h

/-- The last element of a nonempty list is a member (for any default). -/
theorem getLastD_mem {α : Type} : ∀ (l : List α) (d : α), l ≠ [] → l.getLastD d ∈ l
  | [], _, h => absurd rfl h
  | [a], _, _ => by simp [List.getLastD]
  | a :: b :: r, d, _ => by
    have hmem := getLastD_mem (b :: r) a (by simp)
    exact List.mem_cons_of_mem a hmem

/-- In a time-ascending list every element's time is at most the last
element's time (for any default). -/
theorem le_getLastD_time : ∀ (l : List Sample) (d : Sample), List.Pairwise timeLE l →
    ∀ x ∈ l, x.time ≤ (l.getLastD d).time
  | [], _, _ => by simp
  | [a], _, _ => by
    intro x hx
    rw [List.mem_singleton] at hx
    subst hx
    exact le_refl _
  | a :: b :: r, d, hp => by
    intro x hx
    rcases List.mem_cons.mp hx with hx1 | hx2
    · have hlast := getLastD_mem (b :: r) a (by simp)
      have hrel := List.rel_of_pairwise_cons hp hlast
      rw [hx1]
      exact hrel
    · exact le_getLastD_time (b :: r) a hp.of_cons x hx2

/-- For an ascending nonempty series, the fold of max over its times is
max 0 of the last sample's time. -/
theorem maxT_sensorTimes_of_ascending (data : List Sample)
    (hsort : List.Pairwise timeLE data) (hne : data ≠ []) :
    maxT (sensorTimes data) = max 0 (data.getLastD ⟨0, 0⟩).time := by
  apply maxT_eq_of_mem_of_le
  · exact List.mem_map_of_mem Sample.time (getLastD_mem data _ hne)
  · intro x hx
    obtain ⟨smp, hmem, rfl⟩ := List.mem_map.mp hx
    exact le_getLastD_time data _ hsort smp hmem

/-- The amount key survives the filter loop: it is seeded and never
removed. -/
theorem applyFilters_amount_isSome :
    ∀ (args : List FilterArg) (f0 f : EffFilters), applyFilters f0 args = .ok f →
      f0.amount.isSome → f.amount.isSome
  | [], _, _, h, h0 => by cases h; exact h0
  | .amount n :: rest, f0, f, h, _ =>
    applyFilters_amount_isSome rest _ f h (by simp)
  | .timesince t :: rest, f0, f, h, h0 =>
    applyFilters_amount_isSome rest _ f h h0
  | .other _ :: _, _, _, h, _ => by cases h

/-- Python's if x < y: e = y pattern computes the max. -/
theorem if_lt_eq_max (a b : ℚ) : (if a < b then b else a) = max a b := by
  split
  · exact (max_eq_right (le_of_lt (by assumption))).symm
  · exact (max_eq_left (le_of_not_lt (by assumption))).symm

/-- The epoch update of one non-empty series keeps the epoch equal to the
fold of max over all response sample times. -/
theorem epoch_step (resp1 : RouteResult) (gkey s : String) (data : List Sample) (ep : ℚ)
    (hg : (dictGet resp1 gkey).isSome) (hs : s ∉ sensorKeys resp1)
    (hsort : List.Pairwise timeLE data) (hne : data ≠ [])
    (hep : ep = maxT (allTimes resp1)) :
    (if ep < (data.getLastD ⟨0, 0⟩).time then (data.getLastD ⟨0, 0⟩).time else ep)
      = maxT (allTimes (setSensorData resp1 gkey s data)) := by
  have h0ep : (0 : ℚ) ≤ ep := by
    rw [hep]
    exact maxT_nonneg _
  rw [maxT_allTimes_setSensorData resp1 gkey s data hg hs,
    maxT_sensorTimes_of_ascending data hsort hne, ← hep, if_lt_eq_max, ← max_assoc,
    max_eq_left h0ep]

/-- The /sensors loop maintains: the running epoch equals the fold of max
over all sample times placed into the response so far. -/
theorem serveLoopAll_epoch (db : Database) (f : EffFilters) (now : ℚ)
    (n : Nat) (hf : f.amount = some n) :
    ∀ (cfgs : List SensorCfg) (resp : RouteResult) (ep : ℚ),
      (∀ c ∈ cfgs, c.name ∉ sensorKeys resp) →
      List.Pairwise (fun a b : SensorCfg => a.name ≠ b.name) cfgs →
      ep = maxT (allTimes resp) →
      (serveLoopAll db f now cfgs resp ep).2
        = maxT (allTimes (serveLoopAll db f now cfgs resp ep).1) := by
  intro cfgs
  induction cfgs with
  | nil =>
    intro resp ep _ _ hep
    simpa [serveLoopAll] using hep
  | cons c rest ih =>
    intro resp ep hfresh hnodup hep
    have hfresh_rest : ∀ resp' : RouteResult,
        (∀ x, x ∈ sensorKeys resp' ↔ x ∈ sensorKeys resp ∨ x = c.name) →
        ∀ c' ∈ rest, c'.name ∉ sensorKeys resp' := by
      intro resp' hkeys c' hc' hmem
      rcases (hkeys c'.name).mp hmem with hin | heq
      · exact hfresh c' (List.mem_cons_of_mem c hc') hin
      · exact List.rel_of_pairwise_cons hnodup hc' heq.symm
    simp only [serveLoopAll]
    by_cases hen : c.enable
    · rw [if_pos hen]
      set data := serve_sensor_get_data ((dictGet db c.name).getD []) f now with hdata
      have hsort : List.Pairwise timeLE data :=
        serve_sensor_get_data_sorted _ f now n hf
      by_cases hlen : 0 < data.length
      · rw [if_pos hlen]
        apply ih
        · apply hfresh_rest
          intro x
          rw [mem_sensorKeys_setSensorData, sensorKeys_ensureGroup]
        · exact hnodup.of_cons
        · exact (epoch_step (ensureGroup resp c.group) c.group c.name data ep
            (dictGet_ensureGroup_isSome resp c.group)
            (by rw [sensorKeys_ensureGroup]; exact hfresh c (List.mem_cons_self c rest))
            hsort (List.length_pos.mp hlen)
            (by rw [allTimes_ensureGroup]; exact hep))
      · rw [if_neg hlen]
        apply ih
        · intro c' hc'
          rw [sensorKeys_ensureGroup]
          exact hfresh c' (List.mem_cons_of_mem c hc')
        · exact hnodup.of_cons
        · rw [allTimes_ensureGroup]
          exact hep
    · rw [if_neg hen]
      apply ih
      · intro c' hc'
        exact hfresh c' (List.mem_cons_of_mem c hc')
      · exact hnodup.of_cons
      · exact hep

/-- The /sensors/<group> loop maintains the same epoch invariant, with the
requested group key present throughout. -/
theorem serveLoopGroup_epoch (db : Database) (f : EffFilters) (now : ℚ) (g : String)
    (n : Nat) (hf : f.amount = some n) :
    ∀ (cfgs : List SensorCfg) (resp : RouteResult) (ep : ℚ),
      (∀ c ∈ cfgs, c.name ∉ sensorKeys resp) →
      List.Pairwise (fun a b : SensorCfg => a.name ≠ b.name) cfgs →
      (dictGet resp g).isSome →
      ep = maxT (allTimes resp) →
      (serveLoopGroup db f now g cfgs resp ep).2
        = maxT (allTimes (serveLoopGroup db f now g cfgs resp ep).1) := by
  intro cfgs
  induction cfgs with
  | nil =>
    intro resp ep _ _ _ hep
    simpa [serveLoopGroup] using hep
  | cons c rest ih =>
    intro resp ep hfresh hnodup hg hep
    have hfresh_rest : ∀ resp' : RouteResult,
        (∀ x, x ∈ sensorKeys resp' ↔ x ∈ sensorKeys resp ∨ x = c.name) →
        ∀ c' ∈ rest, c'.name ∉ sensorKeys resp' := by
      intro resp' hkeys c' hc' hmem
      rcases (hkeys c'.name).mp hmem with hin | heq
      · exact hfresh c' (List.mem_cons_of_mem c hc') hin
      · exact List.rel_of_pairwise_cons hnodup hc' heq.symm
    simp only [serveLoopGroup]
    by_cases hen : c.enable
    · rw [if_pos hen]
      by_cases hcg : c.group = g
      · rw [if_pos hcg]
        set data := serve_sensor_get_data ((dictGet db c.name).getD []) f now with hdata
        have hsort : List.Pairwise timeLE data :=
          serve_sensor_get_data_sorted _ f now n hf
        by_cases hlen : 0 < data.length
        · rw [if_pos hlen]
          apply ih
          · apply hfresh_rest
            intro x
            rw [mem_sensorKeys_setSensorData]
          · exact hnodup.of_cons
          · exact dictGet_setSensorData_isSome _ _ _ _ _ hg
          · refine epoch_step resp c.group c.name data ep ?_ ?_ hsort
              (List.length_pos.mp hlen) hep
            · rw [hcg]
              exact hg
            · exact hfresh c (List.mem_cons_self c rest)
        · rw [if_neg hlen]
          apply ih
          · intro c' hc'
            exact hfresh c' (List.mem_cons_of_mem c hc')
          · exact hnodup.of_cons
          · exact hg
          · exact hep
      · rw [if_neg hcg]
        apply ih
        · intro c' hc'
          exact hfresh c' (List.mem_cons_of_mem c hc')
        · exact hnodup.of_cons
        · exact hg
        · exact hep
    · rw [if_neg hen]
      apply ih
      · intro c' hc'
        exact hfresh c' (List.mem_cons_of_mem c hc')
      · exact hnodup.of_cons
      · exact hg
      · exact hep

/-- C6: corrected.  For every /sensors and /sensors/<group> response the
server actually produces (its filters dict always carries an amount, so
every series arrives ascending), the epoch field equals the fold of max
with base 0 over all sample times in the result: the maximum sample time
whenever some sample time is nonnegative, and 0 when there are no samples —
but 0, not the maximum, when all sample times are negative. -/
theorem C6_epoch_amended (cfg : List SensorCfg) (db : Database) (datasets : List String)
    (args : List FilterArg) (now : ℚ) (f : EffFilters) (res : RouteResult) (ep : ℚ)
    (hnodup : List.Pairwise (fun a b : SensorCfg => a.name ≠ b.name) cfg)
    (hb : buildFilters args = .ok f)
    (hs : serveSensors cfg db datasets f now = .ok (res, ep)) :
    ep = maxT (allTimes res) := by
  obtain ⟨n, hn⟩ := Option.isSome_iff_exists.mp
    (applyFilters_amount_isSome args _ f hb (by simp))
  unfold serveSensors at hs
  split at hs
  · have h := serveLoopAll_epoch db f now n hn cfg [] 0
      (by intro c _ hmem; simp at hmem) hnodup rfl
    have he := Except.ok.inj hs
    rw [he] at h
    exact h
  · split at hs
    · split at hs
      · have h := serveLoopGroup_epoch db f now (datasets.getD 1 "") n hn cfg
          (dictSet [] (datasets.getD 1 "") []) 0
          (by intro c _ hmem; simp [dictSet] at hmem) hnodup
          (by simp [dictSet]) (by rfl)
        have he := Except.ok.inj hs
        rw [he] at h
        exact h
      · simp at hs
    · simp at hs

/-- Witness for C6: one sensor with one sample at epoch 1 served under the
default filters yields response epoch 1, the fold of max over its times. -/
theorem C6_epoch_amended_witness :
    (1 : ℚ) = maxT (allTimes [("core", [("rpm", [(⟨1, 5⟩ : Sample)])])]) :=
  C6_epoch_amended [⟨"rpm", "core", true⟩] [("rpm", [(1, 5)])] ["sensors"] []
    10 ⟨some 99, none⟩ [("core", [("rpm", [⟨1, 5⟩])])] 1
    (by simp) rfl (by rfl)

/-- C6 counterexample: a sensor whose only sample has time -1 is served
with response epoch 0, but the maximum time over the returned samples is
-1, so the claimed "epoch = maximum time across all returned samples"
fails (the fold starts at 0). -/
theorem C6_epoch_counterexample :
    serveSensors [⟨"rpm", "core", true⟩] [("rpm", [(-1, 5)])] ["sensors"]
      ⟨some 1, none⟩ 10
      = .ok ([("core", [("rpm", [⟨-1, 5⟩])])], 0) ∧
    ¬((0 : ℚ) ∈ allTimes [("core", [("rpm", [(⟨-1, 5⟩ : Sample)])])] ∧
      ∀ t ∈ allTimes [("core", [("rpm", [(⟨-1, 5⟩ : Sample)])])], t ≤ 0) := by
  constructor
  · rfl
  · decide

/-! ## Request parsing and the connection loop (src/src/restful.py) -/

/-- Python str.split(sep) for a one-character separator: splits at every
occurrence and keeps empty parts; never returns an empty list. -/
def pySplit (sep : Char) : List Char → List (List Char)
  | [] => [[]]
  | c :: rest =>
    if c = sep then [] :: pySplit sep rest
    else
      match pySplit sep rest with
      | [] => [[c]]
      | h :: t => (c :: h) :: t

/-- pySplit never produces an empty list of parts. -/
theorem pySplit_ne_nil (sep : Char) (s : List Char) : pySplit sep s ≠ [] := by
  cases s with
  | nil => simp [pySplit]
  | cons c rest =>
    rw [pySplit]
    split
    · simp
    · split
      · simp
      · simp

/-- Splitting a string that does not contain the separator yields the
string itself as the only part. -/
theorem pySplit_of_not_mem (sep : Char) (s : List Char) (h : sep ∉ s) :
    pySplit sep s = [s] := by
  induction s with
  | nil => rfl
  | cons c rest ih =>
    have hcs : ¬c = sep := fun e => h (by rw [e]; exact List.mem_cons_self _ _)
    have hrest : sep ∉ rest := fun hm => h (List.mem_cons_of_mem c hm)
    rw [pySplit, if_neg hcs, ih hrest]

/-- Every character of every part came from the split string. -/
theorem pySplit_chars (sep : Char) :
    ∀ (s : List Char), ∀ part ∈ pySplit sep s, ∀ c ∈ part, c ∈ s := by
  intro s
  induction s with
  | nil =>
    intro part hp c hc
    rw [pySplit] at hp
    rw [List.mem_singleton] at hp
    subst hp
    cases hc
  | cons x rest ih =>
    intro part hp c hc
    rw [pySplit] at hp
    by_cases hx : x = sep
    · rw [if_pos hx] at hp
      rcases List.mem_cons.mp hp with hp1 | hp2
      · subst hp1
        cases hc
      · exact List.mem_cons_of_mem x (ih part hp2 c hc)
    · rw [if_neg hx] at hp
      cases hsp : pySplit sep rest with
      | nil => exact absurd hsp (pySplit_ne_nil sep rest)
      | cons h t =>
        rw [hsp] at hp
        rcases List.mem_cons.mp hp with hp1 | hp2
        · subst hp1
          rcases List.mem_cons.mp hc with hc1 | hc2
          · subst hc1
            exact List.mem_cons_self _ _
          · exact List.mem_cons_of_mem x (ih h (by rw [hsp]; exact List.mem_cons_self _ _) c hc2)
        · exact List.mem_cons_of_mem x (ih part (by rw [hsp]; exact List.mem_cons_of_mem h hp2) c hc)

/-- A decoded request: verb, dataset path, its slash components after the
leading slash, and the key=value filter parts. -/
structure Request where
  rtype : List Char
  dataset : List Char
  datasets : List (List Char)
  filters : List (List (List Char))
deriving DecidableEq, Repr

/-- RestfulRequest._decode_request: split on space (index 1 may raise
IndexError), the second part on ? (index 1 may raise IndexError), the
dataset on /, and each &-separated filter on =.  Any exception becomes an
error result (the caller maps it to status 400). -/
def decodeQuery (s second : List Char) : Except Unit Request :=
  match (pySplit '?' second).get? 1 with
  | none => .error ()
  | some filterPart =>
    .ok { rtype := (pySplit ' ' s).headD []
          dataset := (pySplit '?' second).headD []
          datasets := (pySplit '/' ((pySplit '?' second).headD [])).drop 1
          filters := (pySplit '&' filterPart).map (pySplit '=') }

def decodeRequest (s : List Char) : Except Unit Request :=
  match (pySplit ' ' s).get? 1 with
  | none => .error ()
  | some second => decodeQuery s second

/-- Route handler outcomes distinguished by Restful._websocket_serve. -/
inductive RouteErr where
  | notImplemented  -- NotImplementedError → 501
  | systemErr       -- SystemError → 500
  | fileNotFound    -- FileNotFoundError → 404
deriving DecidableEq, Repr

/-- A JSON reply: status, result object, epoch. -/
structure Response where
  status : Nat
  result : RouteResult
  epoch : ℚ
deriving DecidableEq, Repr

/-- The epoch scan of _websocket_serve over the result: walks every group
and takes each sensor's last sample time when it beats the running epoch;
sensor[-1] on an empty series raises IndexError (an uncaught crash). -/
def scanGroup : List (String × List Sample) → ℚ → Except Unit ℚ
  | [], e => .ok e
  | (_, data) :: rest, e =>
    match data.getLast? with
    | none => .error ()
    | some last => scanGroup rest (if e < last.time then last.time else e)

/-- The outer loop of the epoch scan over all groups. -/
def scanEpoch : RouteResult → ℚ → Except Unit ℚ
  | [], e => .ok e
  | (_, sensors) :: rest, e =>
    match scanGroup sensors e with
    | .error _ => .error ()
    | .ok e' => scanEpoch rest e'

/-- One iteration of Restful._websocket_serve for one received message:
build the response skeleton {200, {}, 0}; a parse failure yields 400 with
the untouched result; a handler exception yields 501/500/404; otherwise
the result is stored and the epoch scan runs (its IndexError crashes the
connection, so no response at all). -/
def handleRequest (cb : Request → Except RouteErr RouteResult) (msg : List Char) :
    Except Unit Response :=
  match decodeRequest msg with
  | .error _ => .ok ⟨400, [], 0⟩
  | .ok req =>
    match cb req with
    | .error .notImplemented => .ok ⟨501, [], 0⟩
    | .error .systemErr => .ok ⟨500, [], 0⟩
    | .error .fileNotFound => .ok ⟨404, [], 0⟩
    | .ok result =>
      match scanEpoch result 0 with
      | .error _ => .error ()
      | .ok e => .ok ⟨200, result, e⟩

/-- The body of while keep_alive: serve messages in arrival order until the
connection closes (list exhausted) or a handler crash kills the coroutine
(no further responses, none for the crashed request). -/
def serveMsgs (cb : Request → Except RouteErr RouteResult) :
    List (List Char) → List Response
  | [] => []
  | m :: rest =>
    match handleRequest cb m with
    | .ok r => r :: serveMsgs cb rest
    | .error _ => []

/-- Restful._websocket_serve: while self._config["keep_alive"]: ... — with
keep-alive disabled the loop body never runs and the socket is closed with
zero requests served; with it enabled every arriving message is served in
turn. -/
def serveConnection (keepAlive : Bool) (cb : Request → Except RouteErr RouteResult)
    (msgs : List (List Char)) : List Response :=
  if keepAlive then serveMsgs cb msgs else []

/-- A stand-in route handler used by the concrete connection examples. -/
def cb0 : Request → Except RouteErr RouteResult := fun _ => .ok []

/-- When every message is served without a crash, the loop answers each
arriving message with exactly one response. -/
theorem serveMsgs_length (cb : Request → Except RouteErr RouteResult) :
    ∀ msgs : List (List Char), (∀ m ∈ msgs, ∃ r, handleRequest cb m = .ok r) →
      (serveMsgs cb msgs).length = msgs.length
  | [], _ => rfl
  | m :: rest, hok => by
    obtain ⟨r, hr⟩ := hok m (List.mem_cons_self m rest)
    simp only [serveMsgs, hr, List.length_cons]
    rw [serveMsgs_length cb rest (fun m' hm' => hok m' (List.mem_cons_of_mem m hm'))]

/-- C9: corrected.  while keep_alive never enters its body when keep-alive
is disabled, so such a connection is closed after zero requests — not the
claimed exactly one; with keep-alive enabled the loop serves one response
per arriving message (until the connection closes or a handler crash). -/
theorem C9_keep_alive_amended (cb : Request → Except RouteErr RouteResult)
    (msgs : List (List Char)) :
    serveConnection false cb msgs = [] ∧
    ((∀ m ∈ msgs, ∃ r, handleRequest cb m = .ok r) →
      (serveConnection true cb msgs).length = msgs.length) := by
  refine ⟨rfl, ?_⟩
  intro hok
  exact serveMsgs_length cb msgs hok

/-- Witness for C9: with keep-alive enabled one incoming message gets one
response. -/
theorem C9_keep_alive_amended_witness :
    (serveConnection true cb0 ["GET /sensors".toList]).length = 1 :=
  (C9_keep_alive_amended cb0 ["GET /sensors".toList]).2 (by
    intro m hm
    rw [List.mem_singleton] at hm
    subst hm
    exact ⟨⟨400, [], 0⟩, rfl⟩)

/-- C9 counterexample: with keep-alive disabled, a connection delivering
one well-formed request is answered with zero responses, not the one
response per connection the claim requires. -/
theorem C9_keep_alive_counterexample :
    serveConnection false cb0 ["GET /sensors?amount=1".toList] = [] ∧
    (serveConnection false cb0 ["GET /sensors?amount=1".toList]).length ≠ 1 :=
  ⟨rfl, by decide⟩

/-- C10: confirmed.  A request string without a ? makes _decode_request
index past the end of a split result (split_space[1] when there is no
space, else split_question[1]), the exception is caught, and the reply is
status 400 with an empty result and epoch 0 — for every route handler cb,
which is therefore never invoked, and no store query runs. -/
theorem C10_no_question_mark (cb : Request → Except RouteErr RouteResult)
    (s : List Char) (h : '?' ∉ s) :
    handleRequest cb s = .ok ⟨400, [], 0⟩ := by
  have hdec : decodeRequest s = .error () := by
    unfold decodeRequest
    cases hs1 : (pySplit ' ' s).get? 1 with
    | none => rfl
    | some second =>
      have hsecond : '?' ∉ second := by
        intro hc
        exact h (pySplit_chars ' ' s second (List.get?_mem hs1) '?' hc)
      show decodeQuery s second = Except.error ()
      unfold decodeQuery
      cases hq : (pySplit '?' second).get? 1 with
      | none => rfl
      | some filterPart =>
        rw [pySplit_of_not_mem '?' second hsecond] at hq
        cases hq
  unfold handleRequest
  rw [hdec]

/-- Witness for C10: the filter-less request GET /sensors is answered 400
with an empty result. -/
theorem C10_no_question_mark_witness :
    handleRequest cb0 ("GET /sensors".toList) = .ok ⟨400, [], 0⟩ :=
  C10_no_question_mark cb0 ("GET /sensors".toList) (by decide)
